import Mathlib

/-!
Shallow embedding of `src/features/DocumentFormatter.ts` from the
vscode-powershell repository: the `PSDocumentFormattingEditProvider`
class (rule scheduler, marker deduplicator, edit applicator, settings
builder), together with theorems settling the specification claims.

JavaScript numbers that hold line/column coordinates are modelled as
`Int`; the two JavaScript bottom values `undefined` and `null` that the
`languageClient` field can hold are modelled explicitly, because the
source guard `this.languageClient !== null` distinguishes them.
-/

namespace DocumentFormatter

/-- Interface `ScriptRegion` (DocumentFormatter.ts lines 36-45). -/
structure ScriptRegion where
  file : String
  text : String
  startLineNumber : Int
  startColumnNumber : Int
  startOffset : Int
  endLineNumber : Int
  endColumnNumber : Int
  endOffset : Int
deriving DecidableEq, Repr, Inhabited

/-- Enum `ScriptFileMarkerLevel` (lines 30-34). -/
inductive ScriptFileMarkerLevel where
  | Information
  | Warning
  | Error
deriving DecidableEq, Repr, Inhabited

/-- Interface `MarkerCorrection` (lines 47-50). -/
structure MarkerCorrection where
  name : String
  edits : List ScriptRegion
deriving DecidableEq, Repr, Inhabited

/-- Interface `ScriptFileMarker` (lines 23-28). -/
structure ScriptFileMarker where
  message : String
  level : ScriptFileMarkerLevel
  scriptRegion : ScriptRegion
  correction : MarkerCorrection
deriving DecidableEq, Repr, Inhabited

/-- The JavaScript expression `marker.correction.edits[0]`: the first
correction edit (the primary region).  The code always indexes `[0]`
directly; `headI` supplies the `Inhabited` default in the (never
exercised) empty case. -/
def firstEdit (m : ScriptFileMarker) : ScriptRegion :=
  m.correction.edits.headI

/-- `a.correction.edits[0].startLineNumber`, the sort/dedup key used
throughout `executeRulesInOrder` (lines 101-102, 117-118). -/
def startLine (m : ScriptFileMarker) : Int :=
  (firstEdit m).startLineNumber

/-- The ordering relation realised by the comparator at lines 100-110:
`a` may precede `b` exactly when `a`'s start line is ≥ `b`'s (the
comparator returns 1 when `a.startLine < b.startLine`, -1 when greater,
0 on ties — a descending sort by start line). -/
def markerGE (a b : ScriptFileMarker) : Prop :=
  startLine b ≤ startLine a

instance : DecidableRel markerGE :=
  fun a b => inferInstanceAs (Decidable (startLine b ≤ startLine a))

instance : IsTotal ScriptFileMarker markerGE :=
  ⟨fun a b => (le_total (startLine b) (startLine a)).imp id id⟩

instance : IsTrans ScriptFileMarker markerGE :=
  ⟨fun _ _ _ hab hbc => le_trans hbc hab⟩

/-- `markers.sort(comparator)` (lines 99-110): sort in descending order
of the first correction edit's start line number. -/
def sortMarkers (markers : List ScriptFileMarker) : List ScriptFileMarker :=
  markers.insertionSort markerGE

/-- The filter loop at lines 116-121: walk the sorted tail, pushing a
marker only when its start line differs from the start line of the most
recently kept marker (`lastLine`). -/
def dedupLoop (lastLine : Int) : List ScriptFileMarker → List ScriptFileMarker
  | [] => []
  | m :: rest =>
    if startLine m ≠ lastLine then m :: dedupLoop (startLine m) rest
    else dedupLoop lastLine rest

/-- The Marker Deduplicator (lines 99-122): sort descending by start
line, keep `markers[0]`, then keep each later marker only if its start
line differs from the last kept one's. -/
def deduplicate (markers : List ScriptFileMarker) : List ScriptFileMarker :=
  match sortMarkers markers with
  | [] => []
  | m :: rest => m :: dedupLoop (startLine m) rest

/-- Field `ruleOrder` (lines 56-59): the fixed rule execution order. -/
def ruleOrder : List String :=
  ["PSPlaceCloseBrace", "PSPlaceOpenBrace", "PSUseConsistentIndentation"]

/-- The scheduler decision at lines 129-137: re-run the same rule index
when the deduplicated batch is not the whole batch, else advance. -/
def nextRuleIndex (markers : List ScriptFileMarker) (index : Nat) : Nat :=
  if (deduplicate markers).length ≠ markers.length then index else index + 1

/-- One buffer replacement issued by `applyEdit` (lines 151-162): the
0-based range handed to `vscode.Range`, the replacement text, and the
undo-stop flags passed to `TextEditor.edit`. -/
structure AppliedEdit where
  startLine : Int
  startColumn : Int
  endLine : Int
  endColumn : Int
  text : String
  undoStopBefore : Bool
  undoStopAfter : Bool
deriving DecidableEq, Repr

/-- Recursion core of method `applyEdit` (lines 143-166).  The source
recurs on `markerIndex`, stopping when `markerIndex >= markers.length`;
here the still-unprocessed suffix `markers.drop markerIndex` drives the
recursion (it is empty exactly when the source guard fires) and its
head `m` is `markers[markerIndex]`.  The undo-stop flags are computed
from `markerIndex` and `markers.length` exactly as at lines 148-149;
`agg` is the `aggregateUndoStop` field and `ruleCount` is
`this.ruleOrder.length`. -/
def applyEditGo (agg : Bool) (ruleCount : Nat) (markers : List ScriptFileMarker)
    (ruleIndex : Nat) : Nat → List ScriptFileMarker → List AppliedEdit
  | _, [] => []
  | markerIndex, m :: rest =>
    let undoStopAfter : Bool :=
      !agg || (ruleIndex == ruleCount - 1 && markerIndex == markers.length - 1)
    let undoStopBefore : Bool :=
      !agg || (ruleIndex == 0 && markerIndex == 0)
    let edit : ScriptRegion := firstEdit m
    { startLine := edit.startLineNumber - 1
      startColumn := edit.startColumnNumber - 1
      endLine := edit.endLineNumber - 1
      endColumn := edit.endColumnNumber - 1
      text := edit.text
      undoStopBefore := undoStopBefore
      undoStopAfter := undoStopAfter } ::
      applyEditGo agg ruleCount markers ruleIndex (markerIndex + 1) rest

/-- Method `applyEdit` (lines 143-166), as the list of buffer
replacements it issues starting at `markerIndex`. -/
def applyEdit (agg : Bool) (ruleCount : Nat) (markers : List ScriptFileMarker)
    (markerIndex ruleIndex : Nat) : List AppliedEdit :=
  applyEditGo agg ruleCount markers ruleIndex markerIndex (markers.drop markerIndex)

/-- The remote `LanguageClient` is opaque to this module: only its
identity matters (requests themselves are modelled by an oracle). -/
structure LanguageClient where
  mk ::
deriving DecidableEq, Repr, Inhabited

/-- A JavaScript field of object type: `undefined` (never assigned —
the initial state of `private languageClient`), `null`, or a value. -/
inductive JsClient (α : Type) where
  | undef
  | null
  | client (c : α)
deriving DecidableEq, Repr

/-- The guard `this.languageClient !== null` (line 86).  Note it is
`true` for `undefined`. -/
def neNullJs {α : Type} : JsClient α → Bool
  | .null => false
  | _ => true

/-- `vscode.TextEdit` as far as this module could ever build one. -/
structure TextEdit where
  startLine : Int
  startColumn : Int
  endLine : Int
  endColumn : Int
  newText : String
deriving DecidableEq, Repr

/-- Value ultimately produced by `executeRulesInOrder`: either the
JavaScript `undefined` (the expression `TextEdit[0]` at line 139 is a
property access on the class object and evaluates to `undefined`), or
an actual array of text edits (never constructed by this code). -/
inductive JsValue where
  | jsUndefined
  | editList (es : List TextEdit)
deriving DecidableEq, Repr

/-- Outcome of running the promise chain to completion. -/
inductive RunResult where
  | value (v : JsValue)
  | typeError
  | outOfFuel
deriving DecidableEq, Repr

/-- Everything observable about one `executeRulesInOrder` run: the
buffer replacements applied (in order), how many marker requests were
sent, and the final settled value. -/
structure RunOutcome where
  edits : List AppliedEdit
  requests : Nat
  result : RunResult
deriving DecidableEq, Repr

/-- Method `executeRulesInOrder` (lines 82-141), run to completion.
`oracle n` is the marker batch the remote service returns to the `n`-th
request; `fuel` bounds the recursion (the source can loop forever when
the service keeps reporting collisions).  When the guard
`languageClient !== null && index < ruleOrder.length` fails the method
returns `TextEdit[0]`, i.e. `undefined`; when `languageClient` is
`undefined` the guard passes and `undefined.sendRequest` throws a
`TypeError` before any request is issued. -/
def executeRulesInOrder (lc : JsClient LanguageClient)
    (oracle : Nat → List ScriptFileMarker) (agg : Bool) :
    Nat → Nat → Nat → RunOutcome
  | 0, _, _ => ⟨[], 0, .outOfFuel⟩
  | fuel + 1, index, reqs =>
    if neNullJs lc = true ∧ index < ruleOrder.length then
      match lc with
      | .client _ =>
        let markers := oracle reqs
        let uniqueMarkers := deduplicate markers
        let passEdits := applyEdit agg ruleOrder.length uniqueMarkers 0 index
        let next := nextRuleIndex markers index
        let rest := executeRulesInOrder lc oracle agg fuel next (reqs + 1)
        ⟨passEdits ++ rest.edits, rest.requests + 1, rest.result⟩
      | _ => ⟨[], 0, .typeError⟩
    else
      ⟨[], 0, .value .jsUndefined⟩

/-- The three `settings.codeformatting` fields `getSettings` reads
(lines 179, 180, 187).  The settings module itself is not part of the
embedded core; its loaded value is passed in explicitly. -/
structure CodeFormattingSettings where
  openBraceOnSameLine : Bool
  newLineAfterOpenBrace : Bool
  indentationSize : Int
deriving DecidableEq, Repr

/-- The shape of the `ruleProperty` hashtable text built by the switch
in `getSettings` (lines 175-196), modelled structurally: which keys the
blob carries and with which values. -/
inductive RuleProperty where
  | openBrace (enable onSameLine newLineAfter : Bool)
  | indentation (enable : Bool) (indentationSize : Int)
  | enableOnly (enable : Bool)
deriving DecidableEq, Repr

/-- The full settings blob returned by `getSettings` (lines 198-203):
`IncludeRules = @(rule)` plus the rule property. -/
structure SettingsBlob where
  includeRules : List String
  ruleProperty : RuleProperty
deriving DecidableEq, Repr

/-- Method `getSettings` (lines 172-204): the switch on the rule name.
`PSPlaceOpenBrace` carries `Enable`/`OnSameLine`/`NewLineAfter`,
`PSUseConsistentIndentation` carries `Enable`/`IndentationSize`, every
other rule (the `default` arm, which `PSPlaceCloseBrace` falls into)
carries only `Enable`. -/
def getSettings (settings : CodeFormattingSettings) (rule : String) : SettingsBlob :=
  { includeRules := [rule]
    ruleProperty :=
      if rule = "PSPlaceOpenBrace" then
        .openBrace true settings.openBraceOnSameLine settings.newLineAfterOpenBrace
      else if rule = "PSUseConsistentIndentation" then
        .indentation true settings.indentationSize
      else
        .enableOnly true }

/-- Whether a rule property carries the two brace-placement booleans. -/
def hasBraceFlags : RuleProperty → Bool
  | .openBrace _ _ _ => true
  | _ => false

/-- The replacement span and text of one applied edit — the arguments
of the `editBuilder.replace` call, without the undo flags. -/
def appliedSpan (e : AppliedEdit) : Int × Int × Int × Int × String :=
  (e.startLine, e.startColumn, e.endLine, e.endColumn, e.text)

/-- The span/text the code derives from a `ScriptRegion`: subtract 1
from the 1-based line/column coordinates (lines 153-157) and take the
region's replacement text (line 158). -/
def regionSpan (r : ScriptRegion) : Int × Int × Int × Int × String :=
  (r.startLineNumber - 1, r.startColumnNumber - 1,
    r.endLineNumber - 1, r.endColumnNumber - 1, r.text)

/-- A concrete one-character region on the given line, for tests of the
embedded code on explicit inputs. -/
def sampleRegion (line : Int) : ScriptRegion :=
  { file := "a.ps1", text := "x", startLineNumber := line,
    startColumnNumber := 1, startOffset := 0, endLineNumber := line,
    endColumnNumber := 2, endOffset := 1 }

/-- A concrete marker whose primary region sits on the given line. -/
def sampleMarker (line : Int) : ScriptFileMarker :=
  { message := "m", level := .Warning, scriptRegion := sampleRegion line,
    correction := { name := "c", edits := [sampleRegion line] } }

/-- Service behaviour with a same-line collision on the first request
for rule 0 (two markers on line 10), one marker on the retry pass, and
no markers afterwards. -/
def collisionOracle : Nat → List ScriptFileMarker
  | 0 => [sampleMarker 10, sampleMarker 10]
  | 1 => [sampleMarker 5]
  | _ => []

/-- Service behaviour that never reports any marker. -/
def emptyOracle : Nat → List ScriptFileMarker := fun _ => []

/-- A full run (client connected, `aggregateUndoStop = true`, as
constructed by `DocumentFormatterFeature`) against `collisionOracle`,
starting at rule index 0 with ample fuel. -/
def collisionRun : RunOutcome :=
  executeRulesInOrder (.client ⟨⟩) collisionOracle true 6 0 0

/-- A full run (client connected) against a service that returns no
markers for any rule. -/
def emptyRun : RunOutcome :=
  executeRulesInOrder (.client ⟨⟩) emptyOracle true 4 0 0

/-- Concrete code-formatting settings for evaluating `getSettings`. -/
def sampleSettings : CodeFormattingSettings :=
  { openBraceOnSameLine := true, newLineAfterOpenBrace := true,
    indentationSize := 4 }

/-- A marker used to witness first-edit-only dependence: its message,
severity, correction name and script region all differ from
`witnessMarkerB`, while `correction.edits[0]` coincides. -/
def witnessMarkerA : ScriptFileMarker :=
  { message := "left", level := .Information,
    scriptRegion := sampleRegion 3,
    correction := { name := "A", edits := [sampleRegion 10] } }

/-- Counterpart of `witnessMarkerA` with the same first correction edit
but different message, severity, correction name and script region. -/
def witnessMarkerB : ScriptFileMarker :=
  { message := "right", level := .Error,
    scriptRegion := sampleRegion 9,
    correction := { name := "B", edits := [sampleRegion 10] } }

/-! ### Helper lemmas about the Deduplicator -/

theorem deduplicate_eq (l : List ScriptFileMarker) :
    deduplicate l =
      match sortMarkers l with
      | [] => []
      | m :: rest => m :: dedupLoop (startLine m) rest :=
  rfl

theorem dedupLoop_length_le (n : Int) (L : List ScriptFileMarker) :
    (dedupLoop n L).length ≤ L.length := by
  induction L generalizing n with
  | nil => simp [dedupLoop]
  | cons m rest ih =>
    simp only [dedupLoop]
    split
    · simpa using Nat.succ_le_succ (ih _)
    · exact le_trans (ih n) (by simp)

theorem deduplicate_length_le (l : List ScriptFileMarker) :
    (deduplicate l).length ≤ l.length := by
  rw [deduplicate_eq]
  cases h : sortMarkers l with
  | nil => simp
  | cons m rest =>
    have hlen : (sortMarkers l).length = l.length := List.length_insertionSort _ _
    rw [h] at hlen
    calc (m :: dedupLoop (startLine m) rest).length
        = (dedupLoop (startLine m) rest).length + 1 := by simp
      _ ≤ rest.length + 1 := Nat.succ_le_succ (dedupLoop_length_le _ _)
      _ = l.length := by simpa using hlen

theorem dedupLoop_lt : ∀ {L : List ScriptFileMarker} {n : Int},
    L.Sorted markerGE → (∀ x ∈ L, startLine x ≤ n) →
    ∀ y ∈ dedupLoop n L, startLine y < n := by
  intro L
  induction L with
  | nil => intro n _ _ y hy; simp [dedupLoop] at hy
  | cons m rest ih =>
    intro n hs hle y hy
    rw [List.sorted_cons] at hs
    by_cases h : startLine m ≠ n
    · rw [show dedupLoop n (m :: rest) = m :: dedupLoop (startLine m) rest from by
        simp [dedupLoop, h]] at hy
      rcases List.mem_cons.mp hy with rfl | hy2
      · exact lt_of_le_of_ne (hle y (List.mem_cons_self _ _)) h
      · exact lt_of_lt_of_le (ih hs.2 (fun x hx => hs.1 x hx) y hy2)
          (hle m (List.mem_cons_self _ _))
    · rw [show dedupLoop n (m :: rest) = dedupLoop n rest from by
        simp [dedupLoop, h]] at hy
      exact ih hs.2 (fun x hx => hle x (List.mem_cons.mpr (Or.inr hx))) y hy

theorem dedupLoop_pairwise : ∀ {L : List ScriptFileMarker} {n : Int},
    L.Sorted markerGE → (∀ x ∈ L, startLine x ≤ n) →
    (dedupLoop n L).Pairwise (fun a b => startLine b < startLine a) := by
  intro L
  induction L with
  | nil => intro n _ _; simp [dedupLoop]
  | cons m rest ih =>
    intro n hs hle
    rw [List.sorted_cons] at hs
    by_cases h : startLine m ≠ n
    · rw [show dedupLoop n (m :: rest) = m :: dedupLoop (startLine m) rest from by
        simp [dedupLoop, h]]
      refine List.pairwise_cons.mpr ⟨?_, ?_⟩
      · exact fun y hy => dedupLoop_lt hs.2 (fun x hx => hs.1 x hx) y hy
      · exact ih hs.2 (fun x hx => hs.1 x hx)
    · rw [show dedupLoop n (m :: rest) = dedupLoop n rest from by
        simp [dedupLoop, h]]
      exact ih hs.2 (fun x hx => hle x (List.mem_cons.mpr (Or.inr hx)))

theorem deduplicate_pairwise (l : List ScriptFileMarker) :
    (deduplicate l).Pairwise (fun a b => startLine b < startLine a) := by
  rw [deduplicate_eq]
  cases h : sortMarkers l with
  | nil => simp
  | cons m rest =>
    have hx : (sortMarkers l).Sorted markerGE := List.sorted_insertionSort markerGE l
    rw [h, List.sorted_cons] at hx
    refine List.pairwise_cons.mpr ⟨?_, ?_⟩
    · exact fun y hy => dedupLoop_lt hx.2 (fun x hmem => hx.1 x hmem) y hy
    · exact dedupLoop_pairwise hx.2 (fun x hmem => hx.1 x hmem)

theorem dedupLoop_eq_self : ∀ {L : List ScriptFileMarker} {n : Int},
    L.Pairwise (fun a b => startLine b < startLine a) →
    (∀ x ∈ L, startLine x < n) → dedupLoop n L = L := by
  intro L
  induction L with
  | nil => intro n _ _; rfl
  | cons m rest ih =>
    intro n hp hlt
    rw [List.pairwise_cons] at hp
    have hne : startLine m ≠ n := ne_of_lt (hlt m (List.mem_cons_self _ _))
    rw [show dedupLoop n (m :: rest) = m :: dedupLoop (startLine m) rest from by
      simp [dedupLoop, hne]]
    exact congrArg (m :: ·) (ih hp.2 (fun x hx => hp.1 x hx))

/-! ### Claim theorems: Deduplicator and Scheduler -/

/-- Claim C1: for every input batch, the Deduplicator keeps at most one
marker per distinct primary-region start line (all kept markers have
pairwise distinct start lines), and the kept subset is never longer
than the input batch. -/
theorem claim_C1_dedup_unique_and_bounded (l : List ScriptFileMarker) :
    (deduplicate l).Pairwise (fun a b => startLine a ≠ startLine b) ∧
      (deduplicate l).length ≤ l.length :=
  ⟨(deduplicate_pairwise l).imp (fun h => ne_of_gt h), deduplicate_length_le l⟩

/-- Claim C2: after a pass at rule index `i` the scheduler's next index
is `i` exactly when the kept subset is strictly smaller than the batch,
and it is always either `i` (revisit) or `i + 1` (advance): rules are
visited in the declared order, revisited only on a strict reduction. -/
theorem claim_C2_scheduler_revisit_iff_reduction
    (markers : List ScriptFileMarker) (index : Nat) :
    (nextRuleIndex markers index = index ↔
      (deduplicate markers).length < markers.length) ∧
    (nextRuleIndex markers index = index ∨
      nextRuleIndex markers index = index + 1) := by
  unfold nextRuleIndex
  by_cases h : (deduplicate markers).length ≠ markers.length
  · rw [if_pos h]
    exact ⟨⟨fun _ => lt_of_le_of_ne (deduplicate_length_le markers) h,
      fun _ => rfl⟩, Or.inl rfl⟩
  · rw [if_neg h]
    push_neg at h
    constructor
    · constructor
      · intro he; omega
      · intro hlt; omega
    · exact Or.inr rfl

/-- Claim C6: the Deduplicator's kept subset is sorted strictly
descending by the start line of each marker's primary region. -/
theorem claim_C6_dedup_sorted_descending (l : List ScriptFileMarker) :
    (deduplicate l).Pairwise (fun a b => startLine b < startLine a) :=
  deduplicate_pairwise l

/-- Claim C7: the Deduplicator is idempotent — sort-then-filter applied
to its own output returns that output unchanged. -/
theorem claim_C7_dedup_idempotent (l : List ScriptFileMarker) :
    deduplicate (deduplicate l) = deduplicate l := by
  have hpw := deduplicate_pairwise l
  have hsorted : (deduplicate l).Sorted markerGE :=
    hpw.imp (fun h => le_of_lt h)
  have hsort_eq : sortMarkers (deduplicate l) = deduplicate l :=
    hsorted.insertionSort_eq
  rw [deduplicate_eq, hsort_eq]
  cases hd : deduplicate l with
  | nil => rfl
  | cons m rest =>
    rw [hd] at hpw
    rw [List.pairwise_cons] at hpw
    exact congrArg (m :: ·) (dedupLoop_eq_self hpw.2 (fun x hx => hpw.1 x hx))

/-! ### Helper lemmas about the Edit Applicator -/

theorem applyEditGo_map_span (agg : Bool) (rc : Nat)
    (markers : List ScriptFileMarker) (ri : Nat) :
    ∀ (mi : Nat) (L : List ScriptFileMarker),
      (applyEditGo agg rc markers ri mi L).map appliedSpan
        = L.map (fun m => regionSpan (firstEdit m)) := by
  intro mi L
  induction L generalizing mi with
  | nil => rfl
  | cons m rest ih =>
    simp only [applyEditGo, List.map_cons, ih]
    rfl

theorem applyEdit_map_span (agg : Bool) (rc : Nat)
    (markers : List ScriptFileMarker) (ri : Nat) :
    (applyEdit agg rc markers 0 ri).map appliedSpan
      = markers.map (fun m => regionSpan (firstEdit m)) := by
  unfold applyEdit
  rw [List.drop_zero]
  exact applyEditGo_map_span agg rc markers ri 0 markers

/-! ### Helper lemmas: the pipeline reads only the first correction edit -/

theorem startLine_congr {a b : ScriptFileMarker}
    (h : firstEdit a = firstEdit b) : startLine a = startLine b :=
  congrArg ScriptRegion.startLineNumber h

theorem map_firstEdit_orderedInsert :
    ∀ {a b : ScriptFileMarker} {L₁ L₂ : List ScriptFileMarker},
      firstEdit a = firstEdit b → L₁.map firstEdit = L₂.map firstEdit →
      (L₁.orderedInsert markerGE a).map firstEdit
        = (L₂.orderedInsert markerGE b).map firstEdit := by
  intro a b L₁
  induction L₁ generalizing a b with
  | nil =>
    intro L₂ hab hmap
    cases L₂ with
    | nil => simp [List.orderedInsert, hab]
    | cons y ys => simp at hmap
  | cons x xs ih =>
    intro L₂ hab hmap
    cases L₂ with
    | nil => simp at hmap
    | cons y ys =>
      simp only [List.map_cons, List.cons.injEq] at hmap
      obtain ⟨hxy, hxs⟩ := hmap
      have hcond : markerGE a x ↔ markerGE b y := by
        unfold markerGE
        rw [startLine_congr hab, startLine_congr hxy]
      by_cases h : markerGE a x
      · rw [List.orderedInsert, if_pos h, List.orderedInsert,
          if_pos (hcond.mp h)]
        simp [hab, hxy, hxs]
      · rw [List.orderedInsert, if_neg h, List.orderedInsert,
          if_neg (fun hb => h (hcond.mpr hb))]
        simp only [List.map_cons]
        rw [hxy, ih hab hxs]

theorem map_firstEdit_sortMarkers :
    ∀ {L₁ L₂ : List ScriptFileMarker},
      L₁.map firstEdit = L₂.map firstEdit →
      (sortMarkers L₁).map firstEdit = (sortMarkers L₂).map firstEdit := by
  intro L₁
  induction L₁ with
  | nil =>
    intro L₂ h
    cases L₂ with
    | nil => rfl
    | cons y ys => simp at h
  | cons x xs ih =>
    intro L₂ h
    cases L₂ with
    | nil => simp at h
    | cons y ys =>
      simp only [List.map_cons, List.cons.injEq] at h
      simp only [sortMarkers, List.insertionSort]
      exact map_firstEdit_orderedInsert h.1 (ih h.2)

theorem map_firstEdit_dedupLoop :
    ∀ {L₁ L₂ : List ScriptFileMarker} {n : Int},
      L₁.map firstEdit = L₂.map firstEdit →
      (dedupLoop n L₁).map firstEdit = (dedupLoop n L₂).map firstEdit := by
  intro L₁
  induction L₁ with
  | nil =>
    intro L₂ n h
    cases L₂ with
    | nil => rfl
    | cons y ys => simp at h
  | cons x xs ih =>
    intro L₂ n h
    cases L₂ with
    | nil => simp at h
    | cons y ys =>
      simp only [List.map_cons, List.cons.injEq] at h
      have hline : startLine x = startLine y := startLine_congr h.1
      by_cases hne : startLine x ≠ n
      · rw [show dedupLoop n (x :: xs) = x :: dedupLoop (startLine x) xs from by
            simp [dedupLoop, hne],
          show dedupLoop n (y :: ys) = y :: dedupLoop (startLine y) ys from by
            simp [dedupLoop, hline ▸ hne]]
        simp only [List.map_cons]
        rw [h.1, hline, ih h.2]
      · push_neg at hne
        rw [show dedupLoop n (x :: xs) = dedupLoop n xs from by
            simp [dedupLoop, hne],
          show dedupLoop n (y :: ys) = dedupLoop n ys from by
            simp [dedupLoop, hline ▸ hne]]
        exact ih h.2

/-! ### Claim theorems: Applicator, runs, settings, noninterference -/

/-- Claim C8: for every kept marker the Applicator replaces exactly the
span obtained by subtracting 1 from the 1-based coordinates of the
marker's first correction edit, with that edit's text; the emitted
replacement sequence is determined marker-by-marker by
`correction.edits[0]` alone, so no later correction edit is applied. -/
theorem claim_C8_applies_first_edit_span (agg : Bool) (rc : Nat)
    (markers : List ScriptFileMarker) (ri : Nat) :
    (applyEdit agg rc markers 0 ri).map appliedSpan
      = markers.map (fun m => regionSpan (firstEdit m)) :=
  applyEdit_map_span agg rc markers ri

/-- Claim C10: the Deduplicator's kept regions and the Applicator's
spans/replacement texts depend only on each marker's first correction
edit — two batches agreeing index-by-index on `correction.edits[0]`
(messages, severities, script regions, correction names free to
differ) yield identical kept positions and identical replacements. -/
theorem claim_C10_depends_only_on_first_edit
    (l₁ l₂ : List ScriptFileMarker)
    (h : l₁.map firstEdit = l₂.map firstEdit) :
    (deduplicate l₁).map firstEdit = (deduplicate l₂).map firstEdit ∧
    ∀ (agg : Bool) (rc ri : Nat),
      (applyEdit agg rc (deduplicate l₁) 0 ri).map appliedSpan
        = (applyEdit agg rc (deduplicate l₂) 0 ri).map appliedSpan := by
  have hsort := map_firstEdit_sortMarkers h
  have hded : (deduplicate l₁).map firstEdit
      = (deduplicate l₂).map firstEdit := by
    rw [deduplicate_eq, deduplicate_eq]
    cases h₁ : sortMarkers l₁ with
    | nil =>
      cases h₂ : sortMarkers l₂ with
      | nil => rfl
      | cons y ys => rw [h₁, h₂] at hsort; simp at hsort
    | cons x xs =>
      cases h₂ : sortMarkers l₂ with
      | nil => rw [h₁, h₂] at hsort; simp at hsort
      | cons y ys =>
        rw [h₁, h₂] at hsort
        simp only [List.map_cons, List.cons.injEq] at hsort
        simp only [List.map_cons, List.cons.injEq]
        refine ⟨hsort.1, ?_⟩
        rw [startLine_congr hsort.1]
        exact map_firstEdit_dedupLoop hsort.2
  refine ⟨hded, fun agg rc ri => ?_⟩
  rw [applyEdit_map_span, applyEdit_map_span,
    show (fun m => regionSpan (firstEdit m)) = regionSpan ∘ firstEdit from rfl,
    ← List.map_map, hded, List.map_map]

/-- Witness for claim C10 at concrete inputs: two singleton batches
whose markers differ in message, severity, script region and correction
name but share `correction.edits[0]`. -/
theorem claim_C10_depends_only_on_first_edit_witness :
    ([witnessMarkerA].map firstEdit = [witnessMarkerB].map firstEdit) ∧
    (((deduplicate [witnessMarkerA]).map firstEdit
        = (deduplicate [witnessMarkerB]).map firstEdit) ∧
      ∀ (agg : Bool) (rc ri : Nat),
        (applyEdit agg rc (deduplicate [witnessMarkerA]) 0 ri).map appliedSpan
          = (applyEdit agg rc (deduplicate [witnessMarkerB]) 0 ri).map
              appliedSpan) :=
  ⟨rfl,
    claim_C10_depends_only_on_first_edit [witnessMarkerA] [witnessMarkerB] rfl⟩

/-- Claim C3 (code bug): in a multi-pass run with a same-line collision
on the first rule, the code opens an undo stop on the first marker of
*every* pass of rule 0 — here both applied edits carry
`undoStopBefore = true`, though only the first edit of the whole run
should — and no edit carries `undoStopAfter = true` even though the run
applies a last edit. -/
theorem claim_C3_undo_stop_flags_bug :
    collisionRun.edits.map (fun e => e.undoStopBefore) = [true, true] ∧
    collisionRun.edits.map (fun e => e.undoStopAfter) = [false, false] := by
  constructor <;> rfl

/-- Claim C4 (code bug): with the language client never set the field
is JavaScript `undefined`, the guard `languageClient !== null` passes,
and the method throws a `TypeError` dereferencing `undefined` — it
neither returns an empty edit result nor issues a request. -/
theorem claim_C4_unset_client_throws
    (oracle : Nat → List ScriptFileMarker) (agg : Bool) (fuel reqs : Nat) :
    executeRulesInOrder .undef oracle agg (fuel + 1) 0 reqs
      = ⟨[], 0, .typeError⟩ :=
  rfl

/-- Claim C5 (code bug): the value the promise chain settles with is
the JavaScript `undefined` produced by the expression `TextEdit[0]`,
not an (empty) array of text edits. -/
theorem claim_C5_result_is_undefined_not_list :
    emptyRun.result = .value .jsUndefined ∧ emptyRun.edits = [] ∧
    ∀ es : List TextEdit, emptyRun.result ≠ .value (.editList es) := by
  refine ⟨rfl, rfl, fun es h => ?_⟩
  have h2 : RunResult.value .jsUndefined = RunResult.value (.editList es) := h
  simp at h2

/-- Counterexample for claim C9: `PSPlaceCloseBrace` is a
brace-placement rule of the fixed order, yet its settings blob falls
into the `default` arm and carries only the enable flag — no
same-line/new-line-after booleans. -/
theorem claim_C9_counterexample_close_brace :
    "PSPlaceCloseBrace" ∈ ruleOrder ∧
    (getSettings sampleSettings "PSPlaceCloseBrace").ruleProperty
      = .enableOnly true ∧
    hasBraceFlags
      (getSettings sampleSettings "PSPlaceCloseBrace").ruleProperty
      = false := by
  refine ⟨?_, rfl, rfl⟩
  simp [ruleOrder]

/-- Claim C9 as amended: only the open-brace rule carries the
same-line/new-line-after booleans; the indentation rule carries the
numeric indentation size; every other rule of the fixed order —
including the close-brace rule — carries only an enable flag. -/
theorem claim_C9_amended_settings_shape (s : CodeFormattingSettings) :
    getSettings s "PSPlaceCloseBrace"
      = { includeRules := ["PSPlaceCloseBrace"],
          ruleProperty := .enableOnly true } ∧
    getSettings s "PSPlaceOpenBrace"
      = { includeRules := ["PSPlaceOpenBrace"],
          ruleProperty :=
            .openBrace true s.openBraceOnSameLine s.newLineAfterOpenBrace } ∧
    getSettings s "PSUseConsistentIndentation"
      = { includeRules := ["PSUseConsistentIndentation"],
          ruleProperty := .indentation true s.indentationSize } := by
  refine ⟨?_, ?_, ?_⟩ <;> simp [getSettings]

end DocumentFormatter
